import Mathlib

/-!
Shallow embedding of `src/pages/api/index.ts` of chatgpt-vercel-A:
an edge proxy that forwards chat-completion requests upstream and, as a
side feature, aggregates billing information over one or more API keys.

Modelling conventions:
* JavaScript numbers are modelled as exact rationals extended with the
  IEEE special values `+Infinity`, `-Infinity`, `NaN`, plus `undefined`
  (which JS arithmetic coerces to `NaN`).  No claim here depends on
  floating-point rounding, only on the special-value behaviour.
* Network calls and JSON payloads are supplied as explicit oracle
  arguments describing the shape the code actually inspects.
* `Array.prototype.sort` is modelled as the algorithm the V8 engine
  (which the Vercel edge runtime uses) runs for arrays shorter than 64
  elements: TimSort degenerates there to initial-run detection (with
  reversal of a strictly descending run) followed by binary insertion of
  the remaining elements.  The comparator passed by the source is
  inconsistent, so this engine-level model is what decides order.
-/

namespace ChatApi

/-- A JavaScript numeric value as far as this program inspects it:
an exact rational, one of the IEEE special values, or `undefined`
(a missing object field, which arithmetic coerces to `NaN`). -/
inductive JSNum where
  | num (q : ℚ)
  | posInf
  | negInf
  | nan
  | undef
  deriving DecidableEq, Repr

/-- `ToNumber` coercion applied by JS arithmetic: `undefined` becomes `NaN`. -/
def arithCoe : JSNum → JSNum
  | .undef => .nan
  | x => x

/-- JS subtraction `a - b` on the modelled values (IEEE rules for the
special values; exact rational subtraction otherwise). -/
def jsub (a b : JSNum) : JSNum :=
  match arithCoe a, arithCoe b with
  | .num x, .num y => .num (x - y)
  | .num _, .posInf => .negInf
  | .num _, .negInf => .posInf
  | .posInf, .num _ => .posInf
  | .negInf, .num _ => .negInf
  | .posInf, .negInf => .posInf
  | .negInf, .posInf => .negInf
  | _, _ => .nan

/-- JS division `a / b` on the modelled values.  Division of a nonzero
rational by zero gives a signed infinity (the zero divisors produced by
this program are plain `+0`), `0 / 0` gives `NaN`. -/
def jdiv (a b : JSNum) : JSNum :=
  match arithCoe a, arithCoe b with
  | .num x, .num y =>
      if y = 0 then (if x = 0 then .nan else if 0 < x then .posInf else .negInf)
      else .num (x / y)
  | .posInf, .num y => if 0 ≤ y then .posInf else .negInf
  | .negInf, .num y => if 0 ≤ y then .negInf else .posInf
  | .num _, .posInf => .num 0
  | .num _, .negInf => .num 0
  | _, _ => .nan

/-- JS strict equality test `x === 0`: true only for the rational zero
(`NaN === 0`, `Infinity === 0` and `undefined === 0` are all false). -/
def jsEqZero : JSNum → Bool
  | .num q => q = 0
  | _ => false

/-- Whether a JS comparator result counts as negative (`v < 0`).  Per the
`SortCompare` algorithm a `NaN` comparator result is treated as `+0`,
hence not negative; `undefined` is not produced by the comparator here. -/
def jsIsNeg : JSNum → Bool
  | .num q => q < 0
  | .negInf => true
  | _ => false

/-- The `Billing` record of the source (line 205): billing data computed
for one API key. -/
structure Billing where
  key : String
  rate : JSNum
  totalGranted : JSNum
  totalUsed : JSNum
  totalAvailable : JSNum
  deriving DecidableEq, Repr

/-- The all-zero record returned by `fetchBilling`'s catch branch
(lines 255-264). -/
def zeroBilling (key : String) : Billing :=
  { key := key, rate := .num 0, totalGranted := .num 0,
    totalUsed := .num 0, totalAvailable := .num 0 }

/-- Outcome of the subscription GET (line 237) as the code inspects it:
`netFail` covers a rejected fetch, a rejected `r.json()`, or a non-object
body (each throws and lands in the catch); `payload errMsg hard_limit_usd`
is a parsed object, with `errMsg` the value of `error?.message` (`none`
when absent) and `hard_limit_usd` the field value (`undef` when absent). -/
inductive SubResp where
  | netFail
  | payload (errMsg : Option String) (hard_limit_usd : JSNum)
  deriving DecidableEq, Repr

/-- Outcome of the usage GET (line 244).  `errMsg` records whether the
body was an upstream error payload; note the source never reads it.
`total_usage` is `undef` when the field is absent (as in an error
payload). -/
inductive UsageResp where
  | netFail
  | payload (errMsg : Option String) (total_usage : JSNum)
  deriving DecidableEq, Repr

/-- `fetchBilling` (lines 213-265): per-key billing lookup.  The two GET
outcomes are passed as oracles.  A thrown error anywhere in the try block
lands in the catch branch, which returns the all-zero record.  The only
explicit error check is `subscriptionData.error?.message` (line 240),
whose JS truthiness requires a non-empty string; there is no such check
on the usage response. -/
def fetchBilling (key : String) (sub : SubResp) (usage : UsageResp) : Billing :=
  match sub with
  | .netFail => zeroBilling key
  | .payload errMsg hl =>
    if errMsg.getD "" ≠ "" then zeroBilling key
    else
      match usage with
      | .netFail => zeroBilling key
      | .payload _ tu =>
        let totalGranted := hl
        let totalUsed := jdiv tu (.num 100)
        let totalAvailable := jsub totalGranted totalUsed
        { key := key, rate := jdiv totalAvailable totalGranted,
          totalGranted := totalGranted, totalUsed := totalUsed,
          totalAvailable := totalAvailable }

/-- The comparator passed to `.sort` in `genBillingsTable` (line 269):
`(m, n) => (m.totalGranted === 0 ? -1 : n.rate - m.rate)`. -/
def sortCmp (m n : Billing) : JSNum :=
  if jsEqZero m.totalGranted then .num (-1) else jsub n.rate m.rate

/-- `cmp(a, b) < 0` for the comparator above, as the sort algorithm
consumes it. -/
def isNegCmp (a b : Billing) : Bool :=
  jsIsNeg (sortCmp a b)

/-- V8 run detection, ascending continuation: starting after `prev`, keep
taking elements while `cmp(current, previous) >= 0`; returns the taken
run continuation and the untouched rest. -/
def takeRunAsc (prev : Billing) : List Billing → List Billing × List Billing
  | [] => ([], [])
  | x :: xs =>
    if isNegCmp x prev then ([], x :: xs)
    else
      let p := takeRunAsc x xs
      (x :: p.1, p.2)

/-- V8 run detection, strictly descending continuation: keep taking
elements while `cmp(current, previous) < 0`. -/
def takeRunDesc (prev : Billing) : List Billing → List Billing × List Billing
  | [] => ([], [])
  | x :: xs =>
    if isNegCmp x prev then
      let p := takeRunDesc x xs
      (x :: p.1, p.2)
    else ([], x :: xs)

/-- V8 `CountAndMakeRun`: the initial maximal run of the array, made
ascending (a strictly descending run is reversed in place), plus the
remaining elements. -/
def makeRun : List Billing → List Billing × List Billing
  | [] => ([], [])
  | [x] => ([x], [])
  | x :: y :: xs =>
    if isNegCmp y x then
      let p := takeRunDesc y xs
      ((x :: y :: p.1).reverse, p.2)
    else
      let p := takeRunAsc y xs
      (x :: y :: p.1, p.2)

/-- V8 binary insertion of a pivot into the already-sorted prefix: the
pivot is placed before the first element `y` with `cmp(pivot, y) < 0`
(the binary search lower bound, which on a prefix sorted by this very
comparator probes exactly this position; ties go to the right, keeping
the sort stable). -/
def binInsert (x : Billing) : List Billing → List Billing
  | [] => [x]
  | y :: l => if isNegCmp x y then x :: y :: l else y :: binInsert x l

/-- `Array.prototype.sort` with the comparator of line 269, as V8 runs it
on arrays of length < 64: detect the initial run, then binary-insert each
remaining element. -/
def jsSort (l : List Billing) : List Billing :=
  let p := makeRun l
  p.2.foldl (fun acc x => binInsert x acc) p.1

/-- The record order `genBillingsTable` (lines 267-283) renders: the
input sorted in place by the comparator of line 269 (the subsequent
`.map` renders one row per record in this order). -/
def genBillingsTableOrder (billings : List Billing) : List Billing :=
  jsSort billings

/-- Whether every record with `totalGranted === 0` occurs before every
other record, i.e. the unusable records form a prefix of the list. -/
def zerosBeforeNonzeros (l : List Billing) : Bool :=
  (l.dropWhile fun r => jsEqZero r.totalGranted).all
    fun r => !jsEqZero r.totalGranted

/-- `q_b ≤ q_a` on two records whose rates are plain numbers. -/
def rateNumGe (a b : Billing) : Bool :=
  match a.rate, b.rate with
  | .num p, .num q => q ≤ p
  | _, _ => false

/-- Decidable check that consecutive rates are non-increasing (all rates
plain numbers). -/
def rateNonIncreasing : List Billing → Bool
  | [] => true
  | [_] => true
  | a :: b :: l => rateNumGe a b && rateNonIncreasing (b :: l)

/-- A record whose `totalGranted` is a nonzero plain number and whose
`rate` is a plain number: on such records the comparator of line 269 is
a consistent comparison function (descending by rate). -/
def numericNonzeroGranted (r : Billing) : Bool :=
  (match r.totalGranted with | .num g => decide (g ≠ 0) | _ => false) &&
  (match r.rate with | .num _ => true | _ => false)

/-- The JSON shape of a non-sentinel event payload as the transcoder
inspects it (lines 176-177: `JSON.parse(data)` then
`json.choices[0].delta?.content`):
* `done` — the data payload is the literal sentinel string `[DONE]`;
* `malformed` — `JSON.parse` throws (the payload is not valid JSON);
* `json none` — valid JSON but no first choice (`choices` absent, empty,
  or its first element not an object), so reading `.delta` on
  `json.choices[0]` throws a `TypeError`;
* `json (some none)` — a first choice without a `delta` field;
* `json (some (some none))` — a `delta` without a `content` field;
* `json (some (some (some s)))` — incremental text `s`. -/
inductive EventData where
  | done
  | malformed
  | json (choices0 : Option (Option (Option String)))
  deriving DecidableEq, Repr

/-- A parsed unit from the eventsource parser: a server-sent event with
its data payload, or a reconnect-interval notice (whose `type` is not
`"event"`, so the callback ignores it). -/
inductive SSEvent where
  | event (data : EventData)
  | reconnectInterval (ms : ℕ)
  deriving DecidableEq, Repr

/-- State of the outbound `ReadableStream` together with the text chunks
enqueued so far, in order. -/
inductive StreamState where
  | opened (emitted : List String)
  | closed (emitted : List String)
  | errored (emitted : List String)
  deriving DecidableEq, Repr

/-- The text the extraction `json.choices[0].delta?.content` hands to
`encoder.encode` for an existing first choice: a missing `delta` or
`content` yields JS `undefined`, and `TextEncoder.encode(undefined)`
encodes the empty string (WebIDL applies the default `""` for an
`undefined` optional argument), so an empty chunk is enqueued. -/
def deltaText (c : Option (Option String)) : String :=
  (c.bind id).getD ""

/-- One invocation of the `streamParser` callback (lines 168-184).  In
the open state: the `[DONE]` sentinel closes the stream (line 172);
a payload without a parseable first choice throws inside the `try`, and
the catch calls `controller.error` (line 181); otherwise the extracted
delta text is encoded and enqueued (lines 177-179).  Once the controller
is closed or errored, no later call changes the emitted chunks:
`enqueue` on a non-readable stream throws before adding to the queue,
and the resulting `controller.error` call is a no-op on a non-readable
stream. -/
def streamParserStep (st : StreamState) (ev : SSEvent) : StreamState :=
  match ev with
  | .reconnectInterval _ => st
  | .event d =>
    match st with
    | .opened em =>
      match d with
      | .done => .closed em
      | .malformed => .errored em
      | .json none => .errored em
      | .json (some c) => .opened (em ++ [deltaText c])
    | .closed em => .closed em
    | .errored em => .errored em

/-- The transcoder over a whole upstream event sequence: the stream
starts open with nothing emitted and each parsed event is fed to the
callback in order (lines 185-188). -/
def runStreamParser (events : List SSEvent) : StreamState :=
  events.foldl streamParserStep (.opened [])

/-- The chunks enqueued so far, regardless of the terminal state. -/
def emittedOf : StreamState → List String
  | .opened em => em
  | .closed em => em
  | .errored em => em

/-- A chat message of the inbound request body. -/
structure ChatMessage where
  role : String
  content : String
  deriving DecidableEq, Repr

/-- A model identifier (the source treats it as a string key into the
token-limit mapping). -/
abbrev Model := String

/-- The `MAX_INPUT_TOKENS` environment value as lines 46-59 classify it:
absent/falsy; a numeral (`Number.isInteger(Number(_))`), which replaces
every per-model limit with that single integer; a JSON object, spread
over the default mapping (`\x7b...default, ...parsed\x7d`); or a value
on which `JSON.parse` throws, leaving the default mapping in place. -/
inductive MaxTokensEnv where
  | unset
  | globalInt (n : ℤ)
  | perModel (ov : List (Model × ℤ))
  | parseError
  deriving DecidableEq, Repr

/-- The per-model limit mapping `maxInputTokens` after the startup
override block (lines 45-63), as a function of the compile-time default
mapping `defaultMaxInputTokens` (imported from `~/system`, kept
abstract) and the environment value. -/
def resolveMaxInputTokens (d : Model → ℤ) : MaxTokensEnv → Model → ℤ
  | .unset, m => d m
  | .globalInt n, _ => n
  | .perModel ov, m => (ov.lookup m).getD (d m)
  | .parseError, m => d m

/-- The ceiling the budget check compares against (line 119):
`body.key ? defaultMaxInputTokens[model] : maxInputTokens[model]` —
the unoverridden default mapping when the caller supplied a (truthy)
key of its own, the override-resolved mapping otherwise. -/
def limitFor (d : Model → ℤ) (env : MaxTokensEnv) (keySupplied : Bool)
    (m : Model) : ℤ :=
  if keySupplied then d m else resolveMaxInputTokens d env m

/-- Error message of line 125 (single message). -/
def shortMsg : String := "It\x27s too long, shorten it a bit."

/-- Error message of lines 122-124 (more than one message). -/
def longMsg : String :=
  "This conversation is too long because the continuous conversation option is turned on, please clear some of the content and try again, or turn off the continuous conversation option."

/-- The token-budget check of lines 118-126: reject (with the message
chosen by the conversation length) exactly when the estimate exceeds the
limit; `none` means the request proceeds. -/
def checkBudget (estimate limit : ℤ) (msgCount : ℕ) : Option String :=
  if estimate > limit then
    some (if msgCount > 1 then longMsg else shortMsg)
  else none

/-- The token estimate of lines 113-116: the sum of `countTokens` over
every message's content (`countTokens` is the external tokenizer
capability, passed as a function). -/
def estimateTokens (countTokens : String → ℕ) (msgs : List ChatMessage) : ℕ :=
  msgs.foldl (fun acc cur => acc + countTokens cur.content) 0

/-- Modelled from the spec: `splitKeys` (imported from `~/utils`, not in
src) splits the credential string on whitespace, comma or newline and
discards empty tokens. -/
def splitKeys (s : String) : List String :=
  (s.split fun c => c = ',' || c = '\n' || c.isWhitespace).filter (· ≠ "")

/-- Modelled from the spec: `randomKey` (imported from `~/utils`, not in
src) selects a key uniformly at random and yields none on an empty set;
the randomness is modelled as an oracle index reduced modulo the pool
size. -/
def randomKey (idx : ℕ) (ks : List String) : Option String :=
  ks.get? (idx % ks.length)

/-- The resolved process configuration the handler reads (lines 34-65):
built-in credential string, password, timeout is omitted (no claim
concerns it), the default per-model limit mapping and default model
(imported from `~/system`, kept abstract per the spec: positive limits
defined for every supported model), the `MAX_INPUT_TOKENS` environment
classification, and the external `countTokens` capability. -/
structure Ctx where
  localKey : String
  pwd : Option String
  defaultLimits : Model → ℤ
  defaultModel : Model
  envMaxTokens : MaxTokensEnv
  countTokens : String → ℕ

/-- The inbound request body (lines 69-82).  Optional fields are `none`
when absent from the JSON. -/
structure Req where
  messages : Option (List ChatMessage)
  key : Option String
  password : Option String
  model : Option Model
  deriving Repr

/-- JS truthiness of `body.key` as used at line 119: present and not the
empty string. -/
def keySupplied (req : Req) : Bool :=
  match req.key with
  | some s => s ≠ ""
  | none => false

/-- The password guard of line 84, `pwd && pwd !== password`: fails only
when a non-empty server password is configured and the request value is
not exactly it. -/
def pwdFail (ctx : Ctx) (req : Req) : Bool :=
  match ctx.pwd with
  | some p => p ≠ "" && req.password ≠ some p
  | none => false

/-- Observable side-effecting steps of the completion path, used to state
ordering claims: the `randomKey` selection (line 109), the token-budget
comparison (lines 118-120) and the upstream completion request
(line 131). -/
inductive Ev where
  | selectKey
  | budgetCheck
  | upstreamCall
  deriving DecidableEq, BEq, Repr

/-- Bodies a handler response can carry:
a JSON error envelope, the billing table (kept as the ordered record
list; the textual rendering is not inspected by any claim), the relayed
upstream body passed through unchanged, or the transcoded stream. -/
inductive RespBody where
  | jsonError (msg : String)
  | table (rows : List Billing)
  | relayBody (s : String)
  | stream (st : StreamState)
  deriving DecidableEq, Repr

/-- A handler response: status, status text, body. -/
structure Resp where
  status : ℕ
  statusText : String
  body : RespBody
  deriving DecidableEq, Repr

/-- The 400 JSON error envelope built by the top-level catch
(lines 193-202). -/
def err400 (msg : String) : Resp :=
  { status := 400, statusText := "", body := .jsonError msg }

/-- Outcome of the upstream completion request (line 131): either the
fetch rejects (timeout or network error, line 148), or a response
arrives with its status, status text, raw body, and — for the transcoder
— the server-sent events the eventsource parser extracts from that
body. -/
inductive UpstreamOutcome where
  | netErr (msg : String)
  | resp (status : ℕ) (statusText : String) (body : String)
      (events : List SSEvent)
  deriving DecidableEq, Repr

/-- Lines 148-192: a rejected fetch becomes the 500 JSON envelope
(lines 149-156); a non-success response (`!rawRes.ok`, i.e. status
outside 200-299) is relayed with its original status, status text and
body, never reaching the transcoder (lines 159-164); a success response
is transcoded and returned as a 200 stream (lines 166-192). -/
def relayOrTranscode (up : UpstreamOutcome) : Resp :=
  match up with
  | .netErr msg => { status := 500, statusText := "", body := .jsonError msg }
  | .resp status statusText body events =>
    if 200 ≤ status ∧ status ≤ 299 then
      { status := 200, statusText := "", body := .stream (runStreamParser events) }
    else
      { status := status, statusText := statusText, body := .relayBody body }

/-- Error message of line 85. -/
def pwdMsg : String := "The password is incorrect, please contact the webmaster."

/-- Error message of line 89. -/
def emptyMsg : String := " No text was entered"

/-- Error message of line 99. -/
def balanceDeniedMsg : String :=
  "If the OpenAI API key is not filled in, the built-in key will not be queried."

/-- Error message of line 111. -/
def noKeyMsg : String :=
  "The OpenAI API key is not filled in, or the key is incorrect."

/-- The normal completion path of the handler (lines 109-192), entered
once the balance-command branches have not matched: select a key via
`randomKey` (line 109) and fail on a falsy result (line 111), then run
the token-budget check (lines 113-126), then issue the upstream call and
relay or transcode its outcome (lines 131-192).  Returns the response
together with the ordered trace of the observable steps. -/
def completionPhase (ctx : Ctx) (req : Req) (msgs : List ChatMessage)
    (key : String) (pickIdx : ℕ) (up : UpstreamOutcome) : Resp × List Ev :=
  match randomKey pickIdx (splitKeys key) with
  | none => (err400 noKeyMsg, [.selectKey])
  | some apiKey =>
    if apiKey = "" then (err400 noKeyMsg, [.selectKey])
    else
      match checkBudget
          (estimateTokens ctx.countTokens msgs)
          (limitFor ctx.defaultLimits ctx.envMaxTokens (keySupplied req)
            (req.model.getD ctx.defaultModel))
          msgs.length with
      | some msg => (err400 msg, [.selectKey, .budgetCheck])
      | none =>
        (relayOrTranscode up, [.selectKey, .budgetCheck, .upstreamCall])

/-- The request handler `post` (lines 67-203), with the billing-lookup
outcomes, the `randomKey` randomness and the upstream outcome passed as
oracles.  Besides the response it returns the ordered trace of the
observable completion-path steps (`Ev`).  `Promise.all` over the key
list (lines 94-96, 102-104) is a full join collecting results in
original order, hence a `List.map`. -/
def post (ctx : Ctx) (req : Req) (wSub : String → SubResp)
    (wUsage : String → UsageResp) (pickIdx : ℕ) (up : UpstreamOutcome) :
    Resp × List Ev :=
  if pwdFail ctx req then (err400 pwdMsg, [])
  else
    match req.messages with
    | none => (err400 emptyMsg, [])
    | some [] => (err400 emptyMsg, [])
    | some (m0 :: ms) =>
      let content := ((m0 :: ms).getLastD m0).content.trim
      let key := req.key.getD ctx.localKey
      if content.startsWith "Check the balance" then
        if key ≠ ctx.localKey then
          (⟨200, "", .table (genBillingsTableOrder
              ((splitKeys key).map fun k => fetchBilling k (wSub k) (wUsage k)))⟩,
            [])
        else (err400 balanceDeniedMsg, [])
      else if content.startsWith "sk-" then
        (⟨200, "", .table (genBillingsTableOrder
            ((splitKeys content).map fun k => fetchBilling k (wSub k) (wUsage k)))⟩,
          [])
      else completionPhase ctx req (m0 :: ms) key pickIdx up

/-! Concrete sample inputs used by counterexamples and witnesses. -/

/-- A usable record: nonzero grant, rate 1. -/
def cexA : Billing :=
  { key := "a", rate := .num 1, totalGranted := .num 1,
    totalUsed := .num 0, totalAvailable := .num 1 }

/-- A usable record: nonzero grant, rate 2. -/
def cexB : Billing :=
  { key := "b", rate := .num 2, totalGranted := .num 1,
    totalUsed := .num 0, totalAvailable := .num 2 }

/-- An unusable record (`totalGranted == 0`), as the catch branch of
`fetchBilling` produces. -/
def cexC : Billing := zeroBilling "c"

/-- A sample configuration: no password, a built-in key, a uniform
default limit of 4096, no override, length-based token counting. -/
def sampleCtx : Ctx :=
  { localKey := "sk-local", pwd := none, defaultLimits := fun _ => 4096,
    defaultModel := "gpt-3.5-turbo", envMaxTokens := .unset,
    countTokens := fun s => s.length }

/-- A sample one-message completion request with no caller key. -/
def sampleReq : Req :=
  { messages := some [{ role := "user", content := "hello" }],
    key := none, password := none, model := none }

/-- A billing-world oracle in which every subscription GET fails. -/
def subFail : String → SubResp := fun _ => .netFail

/-- A billing-world oracle in which every usage GET fails. -/
def usageFail : String → UsageResp := fun _ => .netFail

/-- The event sequence of the spec's transcoder example: two content
deltas (the payloads parse to a first choice whose delta content is
`"Hi"` resp. `" there"`) followed by the `[DONE]` sentinel. -/
def demoEvents : List SSEvent :=
  [.event (.json (some (some (some "Hi")))),
   .event (.json (some (some (some " there")))),
   .event .done]

/-- Claim C6: the token-budget check rejects with the over-length error
exactly when the estimate exceeds the limit and accepts otherwise,
including at the boundary values `limit`, `limit + 1` and `limit - 1`,
and on rejection the multi-turn message differs from the single-turn
message. -/
theorem checkBudget_boundary_and_messages :
    (∀ (e l : ℤ) (n : ℕ), (checkBudget e l n).isSome ↔ e > l) ∧
    (∀ l : ℤ, checkBudget l l 1 = none ∧ checkBudget (l - 1) l 1 = none ∧
      checkBudget (l + 1) l 1 = some shortMsg ∧
      checkBudget l l 2 = none ∧ checkBudget (l - 1) l 2 = none ∧
      checkBudget (l + 1) l 2 = some longMsg) ∧
    shortMsg ≠ longMsg := by
  refine ⟨fun e l n => ?_, fun l => ?_, by decide⟩
  · unfold checkBudget
    split <;> simp_all
  · unfold checkBudget
    refine ⟨?_, ?_, ?_, ?_, ?_, ?_⟩ <;> split <;> simp_all <;> omega

/-- Claim C7: an upstream completion response with a non-success HTTP
status is relayed to the caller with the original status, status text
and body unchanged, never reaching the event transcoder; in particular a
429 upstream response comes back from the full handler as a 429 with the
original body. -/
theorem upstream_error_relayed_unchanged :
    (∀ (status : ℕ) (statusText body : String) (events : List SSEvent),
      ¬(200 ≤ status ∧ status ≤ 299) →
      relayOrTranscode (.resp status statusText body events) =
        { status := status, statusText := statusText,
          body := .relayBody body }) ∧
    (post sampleCtx sampleReq subFail usageFail 0
        (.resp 429 "Too Many Requests" "rate limited" [])).1 =
      { status := 429, statusText := "Too Many Requests",
        body := .relayBody "rate limited" } := by
  constructor
  · intro status statusText body events h
    simp only [relayOrTranscode]
    rw [if_neg h]
  · with_unfolding_all decide

/-- Witness for C7 at the concrete status 429. -/
theorem upstream_error_relayed_unchanged_witness :
    relayOrTranscode (.resp 429 "Too Many Requests" "rate limited" []) =
      { status := 429, statusText := "Too Many Requests",
        body := .relayBody "rate limited" } :=
  upstream_error_relayed_unchanged.1 429 "Too Many Requests" "rate limited" []
    (by decide)

/-- Claim C8: feeding the transcoder the two content deltas followed by
the `[DONE]` sentinel emits exactly `"Hi there"` in event order and
leaves the stream closed (not errored); in general an event whose data
payload is the `[DONE]` sentinel closes the stream. -/
theorem streamParser_done_closes :
    runStreamParser demoEvents = .closed ["Hi", " there"] ∧
    String.join (emittedOf (runStreamParser demoEvents)) = "Hi there" ∧
    ∀ em, streamParserStep (.opened em) (.event .done) = .closed em :=
  ⟨rfl, rfl, fun _ => rfl⟩

/-- Claim C9: an event whose data payload is not valid JSON puts the
stream into the errored terminal state, and from the errored state no
later event sequence changes the state or emits further bytes. -/
theorem streamParser_malformed_aborts :
    (∀ em, streamParserStep (.opened em) (.event .malformed) = .errored em) ∧
    (∀ (em : List String) (evs : List SSEvent),
      List.foldl streamParserStep (.errored em) evs = .errored em) := by
  refine ⟨fun _ => rfl, fun em evs => ?_⟩
  induction evs with
  | nil => rfl
  | cons ev evs ih =>
    cases ev <;> simpa [streamParserStep] using ih

/-- Claim C10: a valid-JSON payload without a first choice aborts the
stream exactly the way malformed JSON does (the extraction failure lands
in the same catch, erroring the stream) rather than being skipped, while
a missing `delta` or `content` field inside an existing first choice is
tolerated: the event enqueues the empty chunk and the stream stays
open. -/
theorem streamParser_missing_choice_aborts :
    (∀ em, streamParserStep (.opened em) (.event (.json none)) = .errored em) ∧
    (∀ em, streamParserStep (.opened em) (.event (.json none)) =
      streamParserStep (.opened em) (.event .malformed)) ∧
    (∀ em, streamParserStep (.opened em) (.event (.json (some none))) =
      .opened (em ++ [""])) ∧
    (∀ em, streamParserStep (.opened em) (.event (.json (some (some none)))) =
      .opened (em ++ [""])) ∧
    (∀ em s, streamParserStep (.opened em) (.event (.json (some (some (some s))))) =
      .opened (em ++ [s])) :=
  ⟨fun _ => rfl, fun _ => rfl, fun _ => rfl, fun _ => rfl, fun _ _ => rfl⟩

/-- Claim C2 counterexample: an upstream error payload from the usage
endpoint — a parsed body carrying an error message and no `total_usage`
field — is not detected by `fetchBilling` (the source checks
`error?.message` only on the subscription response), so the record keeps
the subscription's grant and gets `NaN` usage fields instead of the
all-zero form the claim requires. -/
theorem fetchBilling_usage_error_not_zeroed :
    fetchBilling "sk-a" (.payload none (.num 10))
        (.payload (some "quota exceeded") .undef) ≠ zeroBilling "sk-a" ∧
    (fetchBilling "sk-a" (.payload none (.num 10))
        (.payload (some "quota exceeded") .undef)).totalGranted = .num 10 ∧
    (fetchBilling "sk-a" (.payload none (.num 10))
        (.payload (some "quota exceeded") .undef)).totalUsed = .nan ∧
    (fetchBilling "sk-a" (.payload none (.num 10))
        (.payload (some "quota exceeded") .undef)).rate = .nan := by
  with_unfolding_all decide

/-- Claim C2 (amended): a network failure on either GET, and a truthy
error payload from the subscription endpoint, each downgrade the key's
record to the all-zero form; the key is preserved in every outcome; the
lookup is total (never raises), so mapping it over n keys always yields
exactly n records.  An error payload from the usage endpoint is not
downgraded (see the counterexample). -/
theorem fetchBilling_partial_failure :
    (∀ k u, fetchBilling k .netFail u = zeroBilling k) ∧
    (∀ k hl u s, s ≠ "" →
      fetchBilling k (.payload (some s) hl) u = zeroBilling k) ∧
    (∀ k hl e, fetchBilling k (.payload e hl) .netFail = zeroBilling k) ∧
    (∀ k s u, (fetchBilling k s u).key = k) ∧
    (∀ (keys : List String) (ws : String → SubResp) (wu : String → UsageResp),
      (keys.map fun k => fetchBilling k (ws k) (wu k)).length = keys.length) := by
  refine ⟨fun k u => rfl, ?_, ?_, ?_, fun keys ws wu => List.length_map _ _⟩
  · intro k hl u s hs
    simp [fetchBilling, hs]
  · intro k hl e
    cases e with
    | none => rfl
    | some s =>
      by_cases hs : s = "" <;> simp [fetchBilling, hs]
  · intro k s u
    cases s with
    | netFail => rfl
    | payload e hl =>
      cases u <;> simp only [fetchBilling] <;> split <;> simp [zeroBilling]

/-- Witness for C2 at a concrete subscription error payload. -/
theorem fetchBilling_partial_failure_witness :
    fetchBilling "k" (.payload (some "err") (.num 1)) .netFail =
      zeroBilling "k" :=
  fetchBilling_partial_failure.2.1 "k" (.num 1) .netFail "err" (by decide)

/-- Claim C3 counterexample: a successful lookup whose subscription
reports a hard limit of 0 produces `rate = NaN` (the JS value of
`0 / 0`), not the rate 0 the claim requires for `totalGranted == 0`. -/
theorem fetchBilling_zero_granted_rate_nan :
    (fetchBilling "sk-a" (.payload none (.num 0))
        (.payload none (.num 0))).totalGranted = .num 0 ∧
    (fetchBilling "sk-a" (.payload none (.num 0))
        (.payload none (.num 0))).rate = .nan ∧
    JSNum.nan ≠ .num 0 := by
  with_unfolding_all decide

/-- Claim C3 (amended): on the success path the record's rate is always
the JS quotient `totalAvailable / totalGranted`: the exact rational
quotient when `totalGranted` is a nonzero number, and a division-by-zero
value (`NaN` or a signed infinity) — not 0 — when `totalGranted == 0`.
Rate 0 is produced only by the failure path's all-zero record; marking
`totalGranted == 0` keys unusable happens in the table renderer, not
here. -/
theorem fetchBilling_rate_js_division (k : String) (hl tu : JSNum)
    (e eu : Option String) (he : e.getD "" = "") :
    (fetchBilling k (.payload e hl) (.payload eu tu)).rate =
      jdiv (fetchBilling k (.payload e hl) (.payload eu tu)).totalAvailable
        (fetchBilling k (.payload e hl) (.payload eu tu)).totalGranted ∧
    ((fetchBilling k (.payload e hl) (.payload eu tu)).totalGranted = .num 0 →
      (fetchBilling k (.payload e hl) (.payload eu tu)).rate = .nan ∨
      (fetchBilling k (.payload e hl) (.payload eu tu)).rate = .posInf ∨
      (fetchBilling k (.payload e hl) (.payload eu tu)).rate = .negInf) ∧
    (∀ g a,
      (fetchBilling k (.payload e hl) (.payload eu tu)).totalGranted = .num g →
      g ≠ 0 →
      (fetchBilling k (.payload e hl) (.payload eu tu)).totalAvailable = .num a →
      (fetchBilling k (.payload e hl) (.payload eu tu)).rate = .num (a / g)) := by
  have hred : fetchBilling k (.payload e hl) (.payload eu tu) =
      { key := k, rate := jdiv (jsub hl (jdiv tu (.num 100))) hl,
        totalGranted := hl, totalUsed := jdiv tu (.num 100),
        totalAvailable := jsub hl (jdiv tu (.num 100)) } := by
    simp [fetchBilling, he]
  rw [hred]
  refine ⟨rfl, ?_, ?_⟩
  · intro hg
    simp only at hg
    subst hg
    rcases tu with u | _ | _ | _ | _ <;> simp [jdiv, jsub, arithCoe]
    all_goals split_ifs <;> simp_all
  · intro g a hg hg0 ha
    simp only at hg ha
    subst hg
    rw [ha]
    simp [jdiv, arithCoe, hg0]

/-- Witness for C3 at a concrete zero-grant success response. -/
theorem fetchBilling_rate_js_division_witness :
    (fetchBilling "w" (.payload none (.num 0)) (.payload none (.num 0))).rate =
      jdiv (fetchBilling "w" (.payload none (.num 0))
          (.payload none (.num 0))).totalAvailable
        (fetchBilling "w" (.payload none (.num 0))
          (.payload none (.num 0))).totalGranted ∧
    ((fetchBilling "w" (.payload none (.num 0))
        (.payload none (.num 0))).totalGranted = .num 0 →
      (fetchBilling "w" (.payload none (.num 0))
          (.payload none (.num 0))).rate = .nan ∨
      (fetchBilling "w" (.payload none (.num 0))
          (.payload none (.num 0))).rate = .posInf ∨
      (fetchBilling "w" (.payload none (.num 0))
          (.payload none (.num 0))).rate = .negInf) ∧
    (∀ g a,
      (fetchBilling "w" (.payload none (.num 0))
          (.payload none (.num 0))).totalGranted = .num g →
      g ≠ 0 →
      (fetchBilling "w" (.payload none (.num 0))
          (.payload none (.num 0))).totalAvailable = .num a →
      (fetchBilling "w" (.payload none (.num 0))
          (.payload none (.num 0))).rate = .num (a / g)) :=
  fetchBilling_rate_js_division "w" (.num 0) (.num 0) none none rfl

/-- Helper: the completion phase emits its steps in the fixed order
`selectKey`, then `budgetCheck`, then `upstreamCall`, stopping early on
a missing key or a budget rejection. -/
theorem completionPhase_trace (ctx : Ctx) (req : Req) (msgs : List ChatMessage)
    (key : String) (idx : ℕ) (up : UpstreamOutcome) :
    (completionPhase ctx req msgs key idx up).2 = [.selectKey] ∨
    (completionPhase ctx req msgs key idx up).2 = [.selectKey, .budgetCheck] ∨
    (completionPhase ctx req msgs key idx up).2 =
      [.selectKey, .budgetCheck, .upstreamCall] := by
  unfold completionPhase
  (repeat' split) <;> simp

/-- Claim C4 counterexample: on a concrete normal completion run the
observable step order is key selection, then the token-budget check,
then the upstream call — the budget check does not precede key selection
as the claim states (its index in the trace is larger). -/
theorem post_selects_key_before_budget_check :
    (post sampleCtx sampleReq subFail usageFail 0 (.resp 200 "OK" "" [])).2 =
      [.selectKey, .budgetCheck, .upstreamCall] ∧
    ¬([Ev.selectKey, .budgetCheck, .upstreamCall].indexOf Ev.budgetCheck <
      [Ev.selectKey, .budgetCheck, .upstreamCall].indexOf Ev.selectKey) := by
  constructor
  · with_unfolding_all decide
  · decide

/-- Claim C4 (amended): on every run the handler's observable trace is a
prefix of `selectKey`, `budgetCheck`, `upstreamCall`: key selection
comes first, then the token-budget check, and the upstream completion
request only ever happens after the budget check has passed — in
particular the budget check always precedes any upstream call. -/
theorem post_trace_shape (ctx : Ctx) (req : Req) (wS : String → SubResp)
    (wU : String → UsageResp) (idx : ℕ) (up : UpstreamOutcome) :
    (post ctx req wS wU idx up).2 = [] ∨
    (post ctx req wS wU idx up).2 = [.selectKey] ∨
    (post ctx req wS wU idx up).2 = [.selectKey, .budgetCheck] ∨
    (post ctx req wS wU idx up).2 = [.selectKey, .budgetCheck, .upstreamCall] := by
  by_cases hp : pwdFail ctx req
  · simp [post, hp]
  rcases hmsg : req.messages with _ | ⟨_ | ⟨m0, ms⟩⟩
  · simp [post, hp, hmsg]
  · simp [post, hp, hmsg]
  · simp only [post, hp, hmsg, Bool.false_eq_true, if_false]
    by_cases hbal :
        ((m0 :: ms).getLastD m0).content.trim.startsWith "Check the balance" = true
    · rw [if_pos hbal]
      by_cases hkey : req.key.getD ctx.localKey ≠ ctx.localKey
      · rw [if_pos hkey]; simp
      · rw [if_neg hkey]; simp
    · rw [if_neg hbal]
      by_cases hsk : ((m0 :: ms).getLastD m0).content.trim.startsWith "sk-" = true
      · rw [if_pos hsk]; simp
      · rw [if_neg hsk]
        rcases completionPhase_trace ctx req (m0 :: ms)
            (req.key.getD ctx.localKey) idx up with h | h | h <;> simp [h]

/-- Claim C5 counterexample: with a global integer override of 2000 and
a default limit of 1000, the ceiling for a caller-supplied credential
(1000, the unoverridden default) is smaller, not larger, than the
built-in-credential ceiling (2000); and with no override the two
ceilings are equal. -/
theorem limitFor_override_can_exceed_supplied :
    limitFor (fun _ => 1000) (.globalInt 2000) true "gpt-3.5-turbo" = 1000 ∧
    limitFor (fun _ => 1000) (.globalInt 2000) false "gpt-3.5-turbo" = 2000 ∧
    ¬((1000 : ℤ) > 2000) ∧
    limitFor (fun _ => 1000) .unset true "gpt-3.5-turbo" =
      limitFor (fun _ => 1000) .unset false "gpt-3.5-turbo" := by
  refine ⟨rfl, rfl, by decide, rfl⟩

/-- Claim C5 (amended): the ceiling used when the caller supplied a
credential is always the unoverridden default `defaultMaxInputTokens`
value, for every override configuration; the built-in-credential ceiling
follows the override (the override value itself for a global integer,
the mapping entry for a per-model mapping); the supplied-credential
ceiling is therefore at least the built-in one exactly when the
effective override value does not exceed the default — with no override
the two are equal — and an override above the default reverses the
claimed inequality (see the counterexample). -/
theorem limitFor_supplied_vs_builtin :
    (∀ (d : Model → ℤ) (env : MaxTokensEnv) (m : Model),
      limitFor d env true m = d m) ∧
    (∀ (d : Model → ℤ) (n : ℤ) (m : Model),
      limitFor d (.globalInt n) false m = n) ∧
    (∀ (d : Model → ℤ) (m : Model),
      limitFor d .unset false m = limitFor d .unset true m) ∧
    (∀ (d : Model → ℤ) (n : ℤ) (m : Model), n ≤ d m →
      limitFor d (.globalInt n) false m ≤ limitFor d (.globalInt n) true m) ∧
    (∀ (d : Model → ℤ) (ov : List (Model × ℤ)) (m : Model),
      (∀ v, ov.lookup m = some v → v ≤ d m) →
      limitFor d (.perModel ov) false m ≤ limitFor d (.perModel ov) true m) := by
  refine ⟨fun d env m => rfl, fun d n m => rfl, fun d m => rfl,
    fun d n m h => ?_, fun d ov m h => ?_⟩
  · simpa [limitFor, resolveMaxInputTokens] using h
  · simp only [limitFor, resolveMaxInputTokens, if_true, if_false]
    cases hl : ov.lookup m with
    | none => simp
    | some v => simpa using h v hl

/-- Witness for C5 at a concrete override below the default. -/
theorem limitFor_supplied_vs_builtin_witness :
    limitFor (fun _ => 4096) (.globalInt 500) false "gpt-3.5-turbo" ≤
      limitFor (fun _ => 4096) (.globalInt 500) true "gpt-3.5-turbo" :=
  limitFor_supplied_vs_builtin.2.2.2.1 (fun _ => 4096) 500 "gpt-3.5-turbo"
    (by decide)

/-- `rateNumGe` as a relation: the rates are plain numbers and the
second is at most the first. -/
def RateGe (a b : Billing) : Prop := rateNumGe a b = true

/-- The rates are plain numbers and strictly increase from `a` to `b`. -/
def RateLt (a b : Billing) : Prop :=
  ∃ p q : ℚ, a.rate = .num p ∧ b.rate = .num q ∧ p < q

theorem numericNonzeroGranted_spec (r : Billing) :
    numericNonzeroGranted r = true ↔
      ((∃ g : ℚ, r.totalGranted = .num g ∧ g ≠ 0) ∧ ∃ q : ℚ, r.rate = .num q) := by
  unfold numericNonzeroGranted
  rcases r with ⟨k, rt, tg, tu, ta⟩
  cases tg <;> cases rt <;> simp

theorem rateNumGe_good {a b : Billing} {p q : ℚ} (hra : a.rate = .num p)
    (hrb : b.rate = .num q) : rateNumGe a b = decide (q ≤ p) := by
  unfold rateNumGe
  rw [hra, hrb]

/-- On records with a nonzero numeric grant and numeric rates, the
comparator of line 269 compares by rate: `cmp(a, b) < 0` iff
`b.rate < a.rate`. -/
theorem isNegCmp_good {a b : Billing} {p q : ℚ}
    (hga : ∃ g, a.totalGranted = JSNum.num g ∧ g ≠ 0)
    (hra : a.rate = .num p) (hrb : b.rate = .num q) :
    isNegCmp a b = decide (q < p) := by
  obtain ⟨g, hg, hg0⟩ := hga
  unfold isNegCmp sortCmp
  rw [hg, hra, hrb]
  simp [jsEqZero, hg0, jsub, arithCoe, jsIsNeg, sub_neg]

theorem rateGe_of_not_isNegCmp {a b : Billing}
    (ha : numericNonzeroGranted a = true) (hb : numericNonzeroGranted b = true)
    (h : ¬ isNegCmp b a = true) : RateGe a b := by
  obtain ⟨hga, p, hra⟩ := (numericNonzeroGranted_spec a).1 ha
  obtain ⟨hgb, q, hrb⟩ := (numericNonzeroGranted_spec b).1 hb
  rw [isNegCmp_good hgb hrb hra] at h
  rw [RateGe, rateNumGe_good hra hrb]
  simp at h ⊢
  linarith

theorem rateLt_of_isNegCmp {a b : Billing}
    (ha : numericNonzeroGranted a = true) (hb : numericNonzeroGranted b = true)
    (h : isNegCmp b a = true) : RateLt a b := by
  obtain ⟨hga, p, hra⟩ := (numericNonzeroGranted_spec a).1 ha
  obtain ⟨hgb, q, hrb⟩ := (numericNonzeroGranted_spec b).1 hb
  rw [isNegCmp_good hgb hrb hra] at h
  exact ⟨p, q, hra, hrb, by simpa using h⟩

theorem rateGe_of_rateLt {a b : Billing} (h : RateLt a b) : RateGe b a := by
  obtain ⟨p, q, hra, hrb, hlt⟩ := h
  rw [RateGe, rateNumGe_good hrb hra]
  simpa using le_of_lt hlt

theorem takeRunAsc_append (l : List Billing) : ∀ prev : Billing,
    (takeRunAsc prev l).1 ++ (takeRunAsc prev l).2 = l := by
  induction l with
  | nil => intro prev; rfl
  | cons x xs ih =>
    intro prev
    rw [takeRunAsc]
    split
    · rfl
    · simpa using ih x

theorem takeRunDesc_append (l : List Billing) : ∀ prev : Billing,
    (takeRunDesc prev l).1 ++ (takeRunDesc prev l).2 = l := by
  induction l with
  | nil => intro prev; rfl
  | cons x xs ih =>
    intro prev
    rw [takeRunDesc]
    split
    · simpa using ih x
    · rfl

/-- An ascending run (in comparator terms) is a non-increasing rate
chain when all records are numeric with nonzero grants. -/
theorem takeRunAsc_chain (l : List Billing) : ∀ prev : Billing,
    numericNonzeroGranted prev = true →
    (∀ x ∈ l, numericNonzeroGranted x = true) →
    List.Chain' RateGe (prev :: (takeRunAsc prev l).1) := by
  induction l with
  | nil => intro prev _ _; simp [takeRunAsc]
  | cons x xs ih =>
    intro prev hprev hall
    rw [takeRunAsc]
    split
    · simp
    · rename_i hneg
      have hx : numericNonzeroGranted x = true := hall x (by simp)
      have hchain := ih x hx (fun y hy => hall y (by simp [hy]))
      show List.Chain' RateGe (prev :: x :: (takeRunAsc x xs).1)
      rw [List.chain'_cons]
      exact ⟨rateGe_of_not_isNegCmp hprev hx hneg, hchain⟩

/-- A strictly descending run (in comparator terms) is a strictly
increasing rate chain when all records are numeric with nonzero
grants. -/
theorem takeRunDesc_chain (l : List Billing) : ∀ prev : Billing,
    numericNonzeroGranted prev = true →
    (∀ x ∈ l, numericNonzeroGranted x = true) →
    List.Chain' RateLt (prev :: (takeRunDesc prev l).1) := by
  induction l with
  | nil => intro prev _ _; simp [takeRunDesc]
  | cons x xs ih =>
    intro prev hprev hall
    rw [takeRunDesc]
    split
    · rename_i hneg
      have hx : numericNonzeroGranted x = true := hall x (by simp)
      have hchain := ih x hx (fun y hy => hall y (by simp [hy]))
      show List.Chain' RateLt (prev :: x :: (takeRunDesc x xs).1)
      rw [List.chain'_cons]
      exact ⟨rateLt_of_isNegCmp hprev hx hneg, hchain⟩
    · simp

theorem makeRun_mem (l : List Billing) :
    (∀ x ∈ (makeRun l).1, x ∈ l) ∧ (∀ x ∈ (makeRun l).2, x ∈ l) := by
  match l with
  | [] => simp [makeRun]
  | [x] => simp [makeRun]
  | x :: y :: xs =>
    rw [makeRun]
    split
    · constructor
      · intro z hz
        simp only [List.mem_reverse, List.mem_cons] at hz
        rcases hz with h | h | h
        · simp [h]
        · simp [h]
        · have := takeRunDesc_append xs y
          have hz2 : z ∈ (takeRunDesc y xs).1 := h
          have : z ∈ xs := by
            rw [← this]
            exact List.mem_append_left _ hz2
          simp [this]
      · intro z hz
        have : z ∈ xs := by
          rw [← takeRunDesc_append xs y]
          exact List.mem_append_right _ hz
        simp [this]
    · constructor
      · intro z hz
        simp only [List.mem_cons] at hz
        rcases hz with h | h | h
        · simp [h]
        · simp [h]
        · have : z ∈ xs := by
            rw [← takeRunAsc_append xs y]
            exact List.mem_append_left _ h
          simp [this]
      · intro z hz
        have : z ∈ xs := by
          rw [← takeRunAsc_append xs y]
          exact List.mem_append_right _ hz
        simp [this]

/-- The initial run produced by `makeRun` is a non-increasing rate chain
when all records are numeric with nonzero grants (a strictly descending
initial run is reversed). -/
theorem makeRun_chain (l : List Billing)
    (hall : ∀ x ∈ l, numericNonzeroGranted x = true) :
    List.Chain' RateGe (makeRun l).1 := by
  match l with
  | [] => simp [makeRun]
  | [x] => simp [makeRun]
  | x :: y :: xs =>
    have hx : numericNonzeroGranted x = true := hall x (by simp)
    have hy : numericNonzeroGranted y = true := hall y (by simp)
    have hxs : ∀ z ∈ xs, numericNonzeroGranted z = true :=
      fun z hz => hall z (by simp [hz])
    rw [makeRun]
    split
    · rename_i hneg
      have hlt : RateLt x y := rateLt_of_isNegCmp hx hy hneg
      have hchain : List.Chain' RateLt (x :: y :: (takeRunDesc y xs).1) := by
        rw [List.chain'_cons]
        exact ⟨hlt, takeRunDesc_chain xs y hy hxs⟩
      show List.Chain' RateGe (x :: y :: (takeRunDesc y xs).1).reverse
      rw [List.chain'_reverse]
      exact hchain.imp fun a b hab => rateGe_of_rateLt hab
    · rename_i hneg
      have hge : RateGe x y := rateGe_of_not_isNegCmp hx hy hneg
      show List.Chain' RateGe (x :: y :: (takeRunAsc y xs).1)
      rw [List.chain'_cons]
      exact ⟨hge, takeRunAsc_chain xs y hy hxs⟩

theorem binInsert_mem (x : Billing) (l : List Billing) :
    ∀ z ∈ binInsert x l, z = x ∨ z ∈ l := by
  induction l with
  | nil => simp [binInsert]
  | cons y t ih =>
    intro z hz
    rw [binInsert] at hz
    split at hz
    · simp only [List.mem_cons] at hz
      rcases hz with h | h | h
      · exact Or.inl h
      · exact Or.inr (by simp [h])
      · exact Or.inr (by simp [h])
    · simp only [List.mem_cons] at hz
      rcases hz with h | h
      · exact Or.inr (by simp [h])
      · rcases ih z h with h2 | h2
        · exact Or.inl h2
        · exact Or.inr (by simp [h2])

/-- Binary insertion keeps a non-increasing rate chain non-increasing
when all records are numeric with nonzero grants. -/
theorem binInsert_chain (x : Billing) (l : List Billing)
    (hx : numericNonzeroGranted x = true)
    (hl : ∀ y ∈ l, numericNonzeroGranted y = true)
    (hchain : List.Chain' RateGe l) :
    List.Chain' RateGe (binInsert x l) := by
  induction l with
  | nil => simp [binInsert]
  | cons y t ih =>
    have hy : numericNonzeroGranted y = true := hl y (by simp)
    have ht : ∀ z ∈ t, numericNonzeroGranted z = true :=
      fun z hz => hl z (by simp [hz])
    rw [binInsert]
    split
    · rename_i hpos
      rw [List.chain'_cons]
      refine ⟨?_, hchain⟩
      obtain ⟨hgx, p, hrx⟩ := (numericNonzeroGranted_spec x).1 hx
      obtain ⟨hgy, q, hry⟩ := (numericNonzeroGranted_spec y).1 hy
      rw [isNegCmp_good hgx hrx hry] at hpos
      rw [RateGe, rateNumGe_good hrx hry]
      simp at hpos ⊢
      linarith
    · rename_i hneg
      have htail : List.Chain' RateGe t := hchain.tail
      have hins := ih ht htail
      cases t with
      | nil =>
        show List.Chain' RateGe (y :: binInsert x [])
        rw [binInsert]
        rw [List.chain'_cons]
        exact ⟨rateGe_of_not_isNegCmp hy hx hneg, List.chain'_singleton x⟩
      | cons z t2 =>
        show List.Chain' RateGe (y :: binInsert x (z :: t2))
        rw [binInsert]
        rw [binInsert] at hins
        split
        · rename_i hpos2
          rw [if_pos hpos2] at hins
          rw [List.chain'_cons]
          exact ⟨rateGe_of_not_isNegCmp hy hx hneg, hins⟩
        · rename_i hneg2
          rw [if_neg hneg2] at hins
          rw [List.chain'_cons]
          exact ⟨(List.chain'_cons.1 hchain).1, hins⟩

theorem foldl_binInsert_chain (rest : List Billing) : ∀ acc : List Billing,
    (∀ y ∈ acc, numericNonzeroGranted y = true) →
    (∀ y ∈ rest, numericNonzeroGranted y = true) →
    List.Chain' RateGe acc →
    List.Chain' RateGe (rest.foldl (fun acc x => binInsert x acc) acc) := by
  induction rest with
  | nil => intro acc _ _ h; simpa using h
  | cons x rs ih =>
    intro acc hacc hrest hchain
    have hx : numericNonzeroGranted x = true := hrest x (by simp)
    have hacc2 : ∀ y ∈ binInsert x acc, numericNonzeroGranted y = true := by
      intro y hy
      rcases binInsert_mem x acc y hy with h | h
      · rw [h]; exact hx
      · exact hacc y h
    have hchain2 := binInsert_chain x acc hx hacc hchain
    simpa using ih (binInsert x acc) hacc2
      (fun y hy => hrest y (by simp [hy])) hchain2

theorem rateNonIncreasing_iff_chain : ∀ l : List Billing,
    rateNonIncreasing l = true ↔ List.Chain' RateGe l
  | [] => by simp [rateNonIncreasing]
  | [a] => by simp [rateNonIncreasing]
  | a :: b :: t => by
    rw [rateNonIncreasing, List.chain'_cons, Bool.and_eq_true,
      rateNonIncreasing_iff_chain (b :: t)]
    exact Iff.rfl

/-- Claim C1 counterexample: on the input `[cexB, cexC, cexA]` — two
usable records with rates 2 and 1 and one `totalGranted == 0` record —
the engine's run detection sees a strictly descending run (the
inconsistent comparator reports `cmp(cexC, cexB) = -1` and
`cmp(cexA, cexC) = 0 - 1 < 0`) and reverses the whole array, so the
sorted output is `[cexA, cexC, cexB]`: the unusable record is neither
first nor even before the usable ones, and the usable records' rates
(1 then 2) are increasing, violating both halves of the claim. -/
theorem genBillingsTable_sort_not_zeros_first :
    genBillingsTableOrder [cexB, cexC, cexA] = [cexA, cexC, cexB] ∧
    zerosBeforeNonzeros (genBillingsTableOrder [cexB, cexC, cexA]) = false ∧
    rateNonIncreasing ((genBillingsTableOrder [cexB, cexC, cexA]).filter
      fun r => !jsEqZero r.totalGranted) = false ∧
    jsEqZero cexC.totalGranted = true ∧
    jsEqZero cexA.totalGranted = false ∧
    jsEqZero cexB.totalGranted = false := by
  with_unfolding_all decide

/-- Claim C1 (amended): the comparator of line 269 is inconsistent as
soon as a `totalGranted == 0` record is present, and then neither
zeros-first placement nor descending rate order among the usable
records is guaranteed (see the counterexample).  On inputs all of whose
records have a nonzero numeric grant and a numeric rate the comparator
is a consistent descending-by-rate comparison, and the table order it
produces does have non-increasing rates. -/
theorem genBillingsTable_sort_nonincreasing_without_zeros (l : List Billing)
    (h : ∀ r ∈ l, numericNonzeroGranted r = true) :
    rateNonIncreasing (genBillingsTableOrder l) = true := by
  rw [rateNonIncreasing_iff_chain]
  unfold genBillingsTableOrder jsSort
  have hmem := makeRun_mem l
  exact foldl_binInsert_chain (makeRun l).2 (makeRun l).1
    (fun y hy => h y (hmem.1 y hy))
    (fun y hy => h y (hmem.2 y hy))
    (makeRun_chain l h)

/-- Witness for C1 at a concrete all-usable list. -/
theorem genBillingsTable_sort_nonincreasing_without_zeros_witness :
    rateNonIncreasing (genBillingsTableOrder [cexA, cexB]) = true :=
  genBillingsTable_sort_nonincreasing_without_zeros [cexA, cexB] (by decide)

end ChatApi
